import Mathlib

/-!
Verification development for the program in src/youtube_ss.py
(function capture_every_second).

The program is a single linear procedure: create the output directory,
resolve the video URL (yt-dlp), open the stream (cv2.VideoCapture),
read fps and frame count, compute duration = frame_count / fps,
normalize the second range, loop over each second seeking + reading +
writing a JPEG, and finally release the capture.

We embed the procedure as a pure function from a capture request and an
oracle environment (outcomes of the external calls: resolver, stream
open, stream metadata, per-second decode and per-second filesystem
write) to an event trace (directory creation, seeks, file writes,
resource release) together with an outcome (normal return or a raised
Python exception). Machine floats (fps, duration) are modelled as exact
rationals; a frame rate reported as unavailable is modelled as 0, which
is what cv2.VideoCapture.get returns in that case. Python int() on a
rational truncates toward zero, which we model exactly.
-/

namespace YoutubeSS

/-- Exceptions the run can raise. ResolutionError abstracts a raise
inside ydl.extract_info, StreamOpenError is the RuntimeError of line 62,
ZeroDivisionError is the Python error of evaluating frame_count / fps at
fps = 0 (line 69), RangeError is the ValueError of line 81, WriteError
abstracts a raise inside cv2.imwrite (line 95). MetadataError is named
by the spec only; it is included so that we can state that the code
never raises it. -/
inductive Err where
  | resolutionError
  | streamOpenError
  | metadataError
  | zeroDivisionError
  | rangeError
  | writeError
deriving DecidableEq, Repr

/-- Observable side effects of one run, in order. mkdir is
os.makedirs(output_dir, exist_ok=True) (line 41, creates missing
parents, succeeds if the directory exists); seek is
cap.set(cv2.CAP_PROP_POS_MSEC, ms) (line 85); write is
cv2.imwrite(fname, frame) succeeding for second sec (line 95); release
is cap.release() (line 100). -/
inductive Event where
  | mkdir (dir : String)
  | seek (ms : Int)
  | write (fname : String) (sec : Int)
  | release
deriving DecidableEq, Repr

/-- Capture Request: the caller-supplied parameters of
capture_every_second (the youtube_url string only feeds the resolver
oracle, so it is not carried). start_sec and end_sec are Python ints. -/
structure Request where
  outputDir : String
  startSec : Int
  endSec : Option Int
deriving Repr

/-- Oracle environment fixing the outcomes of every external call of one
run: whether ydl.extract_info returns a stream URL, whether
cap.isOpened(), the reported fps (0 when unavailable) and frame count,
and for each second whether cap.read() returns a frame and whether
cv2.imwrite returns without raising. -/
structure Env where
  resolveOk : Bool
  openOk : Bool
  fps : ℚ
  frameCount : Int
  decodeOk : Int → Bool
  writeOk : Int → Bool

/-- Python int() applied to a (finite) numeric value: truncation toward
zero. Used for end_sec = int(duration) at line 78. -/
def pyInt (q : ℚ) : Int :=
  if 0 ≤ q then ⌊q⌋ else ⌈q⌉

/-- Decimal digits of n zero-padded on the left to width at least 4,
after the Python format f-string frame_\x7bsec:04d\x7d.jpg of line 93. -/
def zeroPad4 (n : Nat) : String :=
  let s := toString n
  if s.length < 4 then String.mk (List.replicate (4 - s.length) '0') ++ s else s

/-- Artifact path os.path.join(output_dir, f-string) of line 93. The
loop only ever reaches nonnegative seconds, so formatting uses s.toNat. -/
def frameName (dir : String) (s : Int) : String :=
  dir ++ "/frame_" ++ zeroPad4 s.toNat ++ ".jpg"

/-- Duration in seconds, frame_count / fps of line 69, as an exact
rational (only evaluated when fps is nonzero). -/
def duration (env : Env) : ℚ :=
  (env.frameCount : ℚ) / env.fps

/-- Normalized start second: start_sec = max(0, start_sec), line 75. -/
def normStart (req : Request) : Int :=
  max 0 req.startSec

/-- Normalized end second, lines 77 and 78: if end_sec is None or
end_sec > duration then end_sec = int(duration), else unchanged. -/
def normEnd (req : Request) (env : Env) : Int :=
  match req.endSec with
  | none => pyInt (duration env)
  | some e => if (e : ℚ) > duration env then pyInt (duration env) else e

/-- The list of seconds range(a, b + 1) iterates, line 84: a, a+1, ...,
b (empty when b < a). -/
def secList (a b : Int) : List Int :=
  (List.range (b + 1 - a).toNat).map (fun (i : Nat) => a + (i : Int))

/-- One run of the loop body of lines 84 to 97 over the remaining
seconds: seek to sec * 1000 (line 85), read a frame (line 87); when the
read fails the loop breaks without error (lines 89 to 91); when
cv2.imwrite raises the exception propagates (line 95, unguarded call);
otherwise the artifact is written and the loop continues. -/
def loop (env : Env) (dir : String) : List Int → List Event × Except Err Unit
  | [] => ([], Except.ok ())
  | s :: rest =>
    if env.decodeOk s = false then
      ([Event.seek (s * 1000)], Except.ok ())
    else if env.writeOk s = false then
      ([Event.seek (s * 1000)], Except.error Err.writeError)
    else
      let r := loop env dir rest
      (Event.seek (s * 1000) :: Event.write (frameName dir s) s :: r.1, r.2)

/-- One run of capture_every_second (lines 41 to 102): create the output
directory first (line 41), resolve (lines 53 to 57), open (lines 60 to
62), read metadata and evaluate frame_count / fps (lines 65 to 69,
raising ZeroDivisionError when fps = 0), normalize the range (lines 75
to 79), raise ValueError when start exceeds end (lines 80 to 81), run
the loop, and release the capture (line 100) - which executes only when
control reaches it, i.e. only when no exception was raised. -/
def run (req : Request) (env : Env) : List Event × Except Err Unit :=
  if env.resolveOk = false then
    ([Event.mkdir req.outputDir], Except.error Err.resolutionError)
  else if env.openOk = false then
    ([Event.mkdir req.outputDir], Except.error Err.streamOpenError)
  else if env.fps = 0 then
    ([Event.mkdir req.outputDir], Except.error Err.zeroDivisionError)
  else if normStart req > normEnd req env then
    ([Event.mkdir req.outputDir], Except.error Err.rangeError)
  else
    let r := loop env req.outputDir (secList (normStart req) (normEnd req env))
    match r.2 with
    | Except.ok _ => (Event.mkdir req.outputDir :: r.1 ++ [Event.release], Except.ok ())
    | Except.error e => (Event.mkdir req.outputDir :: r.1, Except.error e)

/-- Seconds of the write events of a trace, in trace order. -/
def writtenSecs : List Event → List Int
  | [] => []
  | Event.write _ s :: t => s :: writtenSecs t
  | _ :: t => writtenSecs t

/-- Filenames of the write events of a trace, in trace order. -/
def writtenNames : List Event → List String
  | [] => []
  | Event.write f _ :: t => f :: writtenNames t
  | _ :: t => writtenNames t

/-- Number of release events in a trace. -/
def releaseCount : List Event → Nat
  | [] => 0
  | Event.release :: t => releaseCount t + 1
  | _ :: t => releaseCount t

/-- Filesystem state: the set of existing directories and files, as
duplicate-free lists in creation order. File contents are not modelled;
overwriting a file keeps its single entry in place. -/
structure FS where
  dirs : List String
  files : List String
deriving Repr

/-- Insert a name if absent, keep the list unchanged if present: the
semantics of os.makedirs(..., exist_ok=True) on the directory set and of
cv2.imwrite overwriting in place on the file set. -/
def insertNew (l : List String) (x : String) : List String :=
  if x ∈ l then l else l ++ [x]

/-- Effect of one event on the filesystem. -/
def applyEvent (fs : FS) : Event → FS
  | Event.mkdir d => { fs with dirs := insertNew fs.dirs d }
  | Event.write f _ => { fs with files := insertNew fs.files f }
  | _ => fs

/-- Effect of a whole trace on the filesystem. -/
def applyTrace (fs : FS) (t : List Event) : FS :=
  t.foldl applyEvent fs

/-- Writes are preceded by the matching seek: every write event at
second s is immediately preceded in the trace by a seek to s * 1000
milliseconds. -/
def seekBeforeWrite (t : List Event) : Prop :=
  ∀ n f s, t.get? (n + 1) = some (Event.write f s) →
    t.get? n = some (Event.seek (s * 1000))

/-- The event trace of a fully processed list of seconds: one seek plus
one write per second. -/
def blocks (env : Env) (dir : String) : List Int → List Event
  | [] => []
  | t :: r => Event.seek (t * 1000) :: Event.write (frameName dir t) t :: blocks env dir r

instance : DecidableEq (Except Err Unit) := fun a b =>
  match a, b with
  | Except.ok (), Except.ok () => isTrue rfl
  | Except.error e, Except.error f =>
    if h : e = f then isTrue (by rw [h]) else isFalse (fun k => h (by cases k; rfl))
  | Except.ok (), Except.error _ => isFalse (fun k => by cases k)
  | Except.error _, Except.ok () => isFalse (fun k => by cases k)

theorem writtenSecs_append (a b : List Event) :
    writtenSecs (a ++ b) = writtenSecs a ++ writtenSecs b := by
  induction a with
  | nil => rfl
  | cons e t ih => cases e <;> simp [writtenSecs, ih]

theorem releaseCount_append (a b : List Event) :
    releaseCount (a ++ b) = releaseCount a + releaseCount b := by
  induction a with
  | nil => simp [releaseCount]
  | cons e t ih =>
    cases e <;> simp [releaseCount, ih]
    omega

theorem loop_no_release (env : Env) (dir : String) (l : List Int) :
    releaseCount (loop env dir l).1 = 0 := by
  induction l with
  | nil => rfl
  | cons s rest ih =>
    simp only [loop]
    by_cases h1 : env.decodeOk s = false
    · simp [h1, releaseCount]
    · by_cases h2 : env.writeOk s = false <;> simp [h1, h2, releaseCount, ih]

theorem loop_error_is_writeError (env : Env) (dir : String) (l : List Int) (e : Err)
    (h : (loop env dir l).2 = Except.error e) : e = Err.writeError := by
  induction l with
  | nil => simp [loop] at h
  | cons s rest ih =>
    simp only [loop] at h
    by_cases h1 : env.decodeOk s = false
    · simp [h1] at h
    · by_cases h2 : env.writeOk s = false
      · simp [h1, h2] at h
        exact h.symm
      · simp [h1, h2] at h
        exact ih h

theorem loop_writes_take (env : Env) (dir : String) (l : List Int) :
    ∃ k, writtenSecs (loop env dir l).1 = l.take k := by
  induction l with
  | nil => exact ⟨0, rfl⟩
  | cons s rest ih =>
    simp only [loop]
    by_cases h1 : env.decodeOk s = false
    · exact ⟨0, by simp [h1, writtenSecs]⟩
    · by_cases h2 : env.writeOk s = false
      · exact ⟨0, by simp [h1, h2, writtenSecs]⟩
      · obtain ⟨k, hk⟩ := ih
        exact ⟨k + 1, by simp [h1, h2, writtenSecs, hk]⟩

theorem loop_write_name (env : Env) (dir : String) (l : List Int) (f : String) (s : Int)
    (h : Event.write f s ∈ (loop env dir l).1) : f = frameName dir s := by
  induction l with
  | nil => simp [loop] at h
  | cons a rest ih =>
    simp only [loop] at h
    by_cases h1 : env.decodeOk a = false
    · simp [h1] at h
    · by_cases h2 : env.writeOk a = false
      · simp [h1, h2] at h
      · rw [if_neg h1, if_neg h2] at h
        simp only [List.mem_cons] at h
        rcases h with h | h | h
        · cases h
        · cases h
          rfl
        · exact ih h

theorem loop_head_not_write (env : Env) (dir : String) (l : List Int) (f : String) (s : Int) :
    (loop env dir l).1.get? 0 ≠ some (Event.write f s) := by
  cases l with
  | nil => simp [loop]
  | cons a rest =>
    simp only [loop]
    by_cases h1 : env.decodeOk a = false
    · simp [h1]
    · by_cases h2 : env.writeOk a = false <;> simp [h1, h2]

theorem sbw_singleton (e : Event) : seekBeforeWrite [e] := by
  intro n f s h
  cases n <;> simp [List.get?] at h

theorem sbw_block (evs : List Event) (h : seekBeforeWrite evs)
    (hh : ∀ f s, evs.get? 0 ≠ some (Event.write f s)) (fn : String) (s : Int) :
    seekBeforeWrite (Event.seek (s * 1000) :: Event.write fn s :: evs) := by
  intro n f t hget
  match n with
  | 0 =>
    simp only [List.get?_cons_succ, List.get?_cons_zero, Option.some.injEq] at hget
    cases hget
    rfl
  | 1 => exact absurd hget (hh f t)
  | (m + 2) => exact h m f t hget

theorem sbw_cons_mkdir (d : String) (evs : List Event) (h : seekBeforeWrite evs)
    (hh : ∀ f s, evs.get? 0 ≠ some (Event.write f s)) :
    seekBeforeWrite (Event.mkdir d :: evs) := by
  intro n f t hget
  match n with
  | 0 => exact absurd hget (hh f t)
  | (m + 1) => exact h m f t hget

theorem sbw_concat (evs : List Event) (e : Event) (he : ∀ f s, e ≠ Event.write f s)
    (h : seekBeforeWrite evs) : seekBeforeWrite (evs ++ [e]) := by
  intro n f t hget
  by_cases hlt : n + 1 < evs.length
  · have hg : evs.get? (n + 1) = some (Event.write f t) := by
      rw [← List.get?_append hlt]
      exact hget
    rw [List.get?_append (by omega)]
    exact h n f t hg
  · exfalso
    by_cases heq : n + 1 = evs.length
    · have hsome : (evs ++ [e]).get? (n + 1) = some e := by
        rw [List.get?_append_right (by omega), heq]
        simp
      rw [hsome] at hget
      exact he f t (Option.some.inj hget)
    · have hnone : (evs ++ [e]).get? (n + 1) = none := by
        rw [List.get?_append_right (by omega)]
        have h1 : 1 ≤ n + 1 - evs.length := by omega
        match h2 : n + 1 - evs.length with
        | 0 => omega
        | (k + 1) => simp [List.get?]
      rw [hnone] at hget
      cases hget

theorem sbw_loop (env : Env) (dir : String) (l : List Int) :
    seekBeforeWrite (loop env dir l).1 := by
  induction l with
  | nil =>
    intro n f s h
    simp [loop, List.get?] at h
  | cons a rest ih =>
    simp only [loop]
    by_cases h1 : env.decodeOk a = false
    · rw [if_pos h1]
      exact sbw_singleton _
    · rw [if_neg h1]
      by_cases h2 : env.writeOk a = false
      · rw [if_pos h2]
        exact sbw_singleton _
      · rw [if_neg h2]
        exact sbw_block _ ih (fun f s => loop_head_not_write env dir rest f s) _ _

theorem secList_nil (a b : Int) (h : b < a) : secList a b = [] := by
  unfold secList
  have h0 : (b + 1 - a).toNat = 0 := by omega
  simp [h0]

theorem secList_cons (a b : Int) (h : a ≤ b) : secList a b = a :: secList (a + 1) b := by
  unfold secList
  have h1 : (b + 1 - a).toNat = (b + 1 - (a + 1)).toNat + 1 := by omega
  rw [h1, List.range_succ_eq_map, List.map_cons, List.map_map]
  have h2 : ((fun (i : Nat) => a + (i : Int)) ∘ Nat.succ) = fun (i : Nat) => (a + 1) + (i : Int) := by
    funext i
    simp only [Function.comp_apply, Nat.succ_eq_add_one]
    push_cast
    ring
  rw [h2]
  norm_num

theorem writtenSecs_blocks (env : Env) (dir : String) (l : List Int) :
    writtenSecs (blocks env dir l) = l := by
  induction l with
  | nil => rfl
  | cons t r ih => simp [blocks, writtenSecs, ih]

theorem loop_stop (env : Env) (dir : String) (n : ℕ) :
    ∀ (a s b : Int), s - a = (n : Int) → s ≤ b →
    (∀ t, a ≤ t → t < s → env.decodeOk t = true ∧ env.writeOk t = true) →
    (env.decodeOk s = false ∨ env.writeOk s = false) →
    loop env dir (secList a b)
      = (blocks env dir (secList a (s - 1)) ++ [Event.seek (s * 1000)],
         if env.decodeOk s = false then Except.ok () else Except.error Err.writeError) := by
  induction n with
  | zero =>
    intro a s b ha hsb hpre hstop
    obtain rfl : a = s := by omega
    rw [secList_cons a b (by omega), secList_nil a (a - 1) (by omega)]
    simp only [blocks, List.nil_append]
    rcases hstop with hd | hw
    · simp [loop, hd]
    · by_cases hd : env.decodeOk a = false
      · simp [loop, hd]
      · simp [loop, hd, hw]
  | succ m ih =>
    intro a s b ha hsb hpre hstop
    have hlt : a < s := by omega
    rw [secList_cons a b (by omega)]
    have hda := hpre a le_rfl hlt
    simp only [loop, hda.1, hda.2]
    rw [ih (a + 1) s b (by omega) hsb (fun t h1 h2 => hpre t (by omega) h2) hstop]
    rw [secList_cons a (s - 1) (by omega)]
    simp [blocks]

theorem run_loop (req : Request) (env : Env)
    (h1 : ¬env.resolveOk = false) (h2 : ¬env.openOk = false) (h3 : ¬env.fps = 0)
    (h4 : ¬normStart req > normEnd req env) :
    run req env
      = (match (loop env req.outputDir (secList (normStart req) (normEnd req env))).2 with
         | Except.ok _ =>
           (Event.mkdir req.outputDir ::
              (loop env req.outputDir (secList (normStart req) (normEnd req env))).1
              ++ [Event.release], Except.ok ())
         | Except.error e =>
           (Event.mkdir req.outputDir ::
              (loop env req.outputDir (secList (normStart req) (normEnd req env))).1,
            Except.error e)) := by
  unfold run
  rw [if_neg h1, if_neg h2, if_neg h3, if_neg h4]

theorem run_rangeError (req : Request) (env : Env)
    (h1 : ¬env.resolveOk = false) (h2 : ¬env.openOk = false) (h3 : ¬env.fps = 0)
    (h4 : normStart req > normEnd req env) :
    run req env = ([Event.mkdir req.outputDir], Except.error Err.rangeError) := by
  unfold run
  rw [if_neg h1, if_neg h2, if_neg h3, if_pos h4]

theorem mem_insertNew_self (l : List String) (x : String) : x ∈ insertNew l x := by
  unfold insertNew
  by_cases h : x ∈ l
  · simp [h]
  · simp [h]

theorem mem_insertNew_of_mem (l : List String) (x y : String) (h : y ∈ l) :
    y ∈ insertNew l x := by
  unfold insertNew
  by_cases hx : x ∈ l <;> simp [hx, h]

theorem nodup_insertNew (l : List String) (x : String) (h : l.Nodup) :
    (insertNew l x).Nodup := by
  unfold insertNew
  by_cases hx : x ∈ l
  · simpa [hx]
  · simp [hx, List.nodup_append, h]

theorem dirs_applyEvent_mono (fs : FS) (e : Event) (d : String) (h : d ∈ fs.dirs) :
    d ∈ (applyEvent fs e).dirs := by
  cases e <;> simp [applyEvent, h, mem_insertNew_of_mem]

theorem files_applyEvent_mono (fs : FS) (e : Event) (f : String) (h : f ∈ fs.files) :
    f ∈ (applyEvent fs e).files := by
  cases e <;> simp [applyEvent, h, mem_insertNew_of_mem]

theorem dirs_applyTrace_mono (t : List Event) (fs : FS) (d : String) (h : d ∈ fs.dirs) :
    d ∈ (applyTrace fs t).dirs := by
  induction t generalizing fs with
  | nil => exact h
  | cons e r ih => exact ih (applyEvent fs e) (dirs_applyEvent_mono fs e d h)

theorem files_applyTrace_mono (t : List Event) (fs : FS) (f : String) (h : f ∈ fs.files) :
    f ∈ (applyTrace fs t).files := by
  induction t generalizing fs with
  | nil => exact h
  | cons e r ih => exact ih (applyEvent fs e) (files_applyEvent_mono fs e f h)

theorem mkdir_mem_applyTrace (t : List Event) (fs : FS) (d : String)
    (h : Event.mkdir d ∈ t) : d ∈ (applyTrace fs t).dirs := by
  induction t generalizing fs with
  | nil => cases h
  | cons e r ih =>
    rcases List.mem_cons.mp h with h | h
    · subst h
      exact dirs_applyTrace_mono r _ d (mem_insertNew_self fs.dirs d)
    · exact ih (applyEvent fs e) h

theorem write_mem_applyTrace (t : List Event) (fs : FS) (f : String) (s : Int)
    (h : Event.write f s ∈ t) : f ∈ (applyTrace fs t).files := by
  induction t generalizing fs with
  | nil => cases h
  | cons e r ih =>
    rcases List.mem_cons.mp h with h | h
    · subst h
      exact files_applyTrace_mono r _ f (mem_insertNew_self fs.files f)
    · exact ih (applyEvent fs e) h

theorem applyTrace_noop (t : List Event) (fs : FS)
    (hd : ∀ d, Event.mkdir d ∈ t → d ∈ fs.dirs)
    (hf : ∀ f s, Event.write f s ∈ t → f ∈ fs.files) :
    applyTrace fs t = fs := by
  induction t with
  | nil => rfl
  | cons e r ih =>
    have he : applyEvent fs e = fs := by
      cases e with
      | mkdir d =>
        have : d ∈ fs.dirs := hd d (List.mem_cons_self _ _)
        simp [applyEvent, insertNew, this]
      | write f s =>
        have : f ∈ fs.files := hf f s (List.mem_cons_self _ _)
        simp [applyEvent, insertNew, this]
      | seek ms => rfl
      | release => rfl
    calc applyTrace fs (e :: r) = applyTrace (applyEvent fs e) r := rfl
      _ = applyTrace fs r := by rw [he]
      _ = fs := ih (fun d h => hd d (List.mem_cons_of_mem e h))
                   (fun f s h => hf f s (List.mem_cons_of_mem e h))

theorem applyTrace_idem (t : List Event) (fs : FS) :
    applyTrace (applyTrace fs t) t = applyTrace fs t := by
  apply applyTrace_noop
  · exact fun d h => mkdir_mem_applyTrace t fs d h
  · exact fun f s h => write_mem_applyTrace t fs f s h

theorem nodup_files_applyTrace (t : List Event) (fs : FS) (h : fs.files.Nodup) :
    (applyTrace fs t).files.Nodup := by
  induction t generalizing fs with
  | nil => exact h
  | cons e r ih =>
    refine ih (applyEvent fs e) ?_
    cases e <;> simp [applyEvent, h, nodup_insertNew]

theorem nodup_dirs_applyTrace (t : List Event) (fs : FS) (h : fs.dirs.Nodup) :
    (applyTrace fs t).dirs.Nodup := by
  induction t generalizing fs with
  | nil => exact h
  | cons e r ih =>
    refine ih (applyEvent fs e) ?_
    cases e <;> simp [applyEvent, h, nodup_insertNew]

/-- C1 (amended): the capture opened by cv2.VideoCapture is released
exactly once when the run returns normally (complete loop or early stop
after a decode failure), but zero times when the run aborts with a
raised error (inverted-range ValueError, ZeroDivisionError, or an
imwrite error after the stream is opened): the release count is 1 on ok
outcomes and 0 on error outcomes. -/
theorem C1_release_only_on_normal_return (req : Request) (env : Env) :
    releaseCount (run req env).1
      = match (run req env).2 with
        | Except.ok _ => 1
        | Except.error _ => 0 := by
  by_cases h1 : env.resolveOk = false
  · unfold run
    rw [if_pos h1]
    rfl
  · by_cases h2 : env.openOk = false
    · unfold run
      rw [if_neg h1, if_pos h2]
      rfl
    · by_cases h3 : env.fps = 0
      · unfold run
        rw [if_neg h1, if_neg h2, if_pos h3]
        rfl
      · by_cases h4 : normStart req > normEnd req env
        · rw [run_rangeError req env h1 h2 h3 h4]
          rfl
        · rw [run_loop req env h1 h2 h3 h4]
          rcases hr : (loop env req.outputDir (secList (normStart req) (normEnd req env))).2
            with e | u
          · simp [releaseCount, loop_no_release]
          · show releaseCount (Event.mkdir req.outputDir ::
                ((loop env req.outputDir (secList (normStart req) (normEnd req env))).1
                  ++ [Event.release])) = 1
            have hm : releaseCount (Event.mkdir req.outputDir ::
                ((loop env req.outputDir (secList (normStart req) (normEnd req env))).1
                  ++ [Event.release]))
                = releaseCount ((loop env req.outputDir
                    (secList (normStart req) (normEnd req env))).1 ++ [Event.release]) := rfl
            rw [hm, releaseCount_append, loop_no_release]
            rfl

/-- C1 counterexample: on the inverted-range input start=8, end=3
against a healthy opened 20-second stream, the run raises the range
error and the trace contains no release of the opened capture, refuting
release-on-every-exit-path. -/
theorem C1_counterexample :
    (run ⟨"frames", 8, some 3⟩ ⟨true, true, 30, 600, fun _ => true, fun _ => true⟩).2
        = Except.error Err.rangeError
    ∧ releaseCount
        (run ⟨"frames", 8, some 3⟩ ⟨true, true, 30, 600, fun _ => true, fun _ => true⟩).1
        ≠ 1 := by
  have h : run ⟨"frames", 8, some 3⟩ ⟨true, true, 30, 600, fun _ => true, fun _ => true⟩
      = ([Event.mkdir "frames"], Except.error Err.rangeError) := by
    norm_num [run, normStart, normEnd, duration, pyInt]
  rw [h]
  exact ⟨rfl, by decide⟩

/-- C2 (amended): when the opened stream reports a zero (or unavailable,
reported as zero) frame rate, the run aborts fatally, but by evaluating
the unguarded division frame_count / fps, which raises Python
ZeroDivisionError; there is no MetadataError guard - no run ever fails
with MetadataError. -/
theorem C2_zero_fps_unguarded (req : Request) (env : Env) :
    (run req env).2 ≠ Except.error Err.metadataError
    ∧ (env.resolveOk = true → env.openOk = true → env.fps = 0 →
        (run req env).2 = Except.error Err.zeroDivisionError) := by
  constructor
  · by_cases h1 : env.resolveOk = false
    · unfold run
      rw [if_pos h1]
      simp
    · by_cases h2 : env.openOk = false
      · unfold run
        rw [if_neg h1, if_pos h2]
        simp
      · by_cases h3 : env.fps = 0
        · unfold run
          rw [if_neg h1, if_neg h2, if_pos h3]
          simp
        · by_cases h4 : normStart req > normEnd req env
          · rw [run_rangeError req env h1 h2 h3 h4]
            simp
          · rw [run_loop req env h1 h2 h3 h4]
            rcases hr : (loop env req.outputDir (secList (normStart req) (normEnd req env))).2
              with e | u
            · have hw := loop_error_is_writeError env req.outputDir _ e hr
              simp [hw]
            · simp
  · intro hres hopen hfps
    unfold run
    rw [if_neg (by simp [hres]), if_neg (by simp [hopen]), if_pos hfps]

/-- C2 counterexample: with the stream resolved and opened but fps
reported as 0, the run fails with ZeroDivisionError from evaluating
frame_count / fps, not with the MetadataError the claim requires. -/
theorem C2_counterexample :
    (run ⟨"frames", 0, some 2⟩ ⟨true, true, 0, 600, fun _ => true, fun _ => true⟩).2
        = Except.error Err.zeroDivisionError
    ∧ (run ⟨"frames", 0, some 2⟩ ⟨true, true, 0, 600, fun _ => true, fun _ => true⟩).2
        ≠ Except.error Err.metadataError := by
  have h : (run ⟨"frames", 0, some 2⟩ ⟨true, true, 0, 600, fun _ => true, fun _ => true⟩).2
      = Except.error Err.zeroDivisionError := by
    norm_num [run]
  rw [h]
  exact ⟨rfl, by decide⟩

theorem C2_zero_fps_unguarded_witness :
    ((true : Bool) = true ∧ (0 : ℚ) = 0)
    ∧ (run ⟨"out", 0, none⟩ ⟨true, true, 0, -1, fun _ => true, fun _ => true⟩).2
        ≠ Except.error Err.metadataError
    ∧ (run ⟨"out", 0, none⟩ ⟨true, true, 0, -1, fun _ => true, fun _ => true⟩).2
        = Except.error Err.zeroDivisionError := by
  refine ⟨⟨rfl, rfl⟩, ?_, ?_⟩
  · exact (C2_zero_fps_unguarded ⟨"out", 0, none⟩ ⟨true, true, 0, -1, fun _ => true, fun _ => true⟩).1
  · exact (C2_zero_fps_unguarded ⟨"out", 0, none⟩ ⟨true, true, 0, -1, fun _ => true, fun _ => true⟩).2
      rfl rfl rfl

/-- C3: when the normalized start second exceeds the normalized end
second, a run whose stream resolved and opened with a nonzero frame rate
aborts with the range error (ValueError of line 81), writes no image
artifact, and leaves the file set of any filesystem unchanged. -/
theorem C3_inverted_range (req : Request) (env : Env)
    (h1 : env.resolveOk = true) (h2 : env.openOk = true) (h3 : env.fps ≠ 0)
    (h4 : normStart req > normEnd req env) :
    (run req env).2 = Except.error Err.rangeError
    ∧ writtenSecs (run req env).1 = []
    ∧ ∀ fs : FS, (applyTrace fs (run req env).1).files = fs.files := by
  rw [run_rangeError req env (by simp [h1]) (by simp [h2]) h3 h4]
  exact ⟨rfl, rfl, fun fs => rfl⟩

theorem C3_inverted_range_witness :
    normStart ⟨"frames", 8, some 3⟩
        > normEnd ⟨"frames", 8, some 3⟩ ⟨true, true, 30, 600, fun _ => true, fun _ => true⟩
    ∧ (run ⟨"frames", 8, some 3⟩ ⟨true, true, 30, 600, fun _ => true, fun _ => true⟩).2
        = Except.error Err.rangeError
    ∧ writtenSecs
        (run ⟨"frames", 8, some 3⟩ ⟨true, true, 30, 600, fun _ => true, fun _ => true⟩).1
        = []
    ∧ ∀ fs : FS,
        (applyTrace fs
          (run ⟨"frames", 8, some 3⟩ ⟨true, true, 30, 600, fun _ => true, fun _ => true⟩).1).files
          = fs.files := by
  have hr : normStart ⟨"frames", 8, some 3⟩
      > normEnd ⟨"frames", 8, some 3⟩ ⟨true, true, 30, 600, fun _ => true, fun _ => true⟩ := by
    norm_num [normStart, normEnd, duration, pyInt]
  obtain ⟨ha, hb, hc⟩ := C3_inverted_range ⟨"frames", 8, some 3⟩
    ⟨true, true, 30, 600, fun _ => true, fun _ => true⟩ rfl rfl (by norm_num) hr
  exact ⟨hr, ha, hb, hc⟩

/-- C6: normalization clamps a negative start second to 0 and keeps a
nonnegative start second unchanged: normStart is max(0, start_sec). -/
theorem C6_start_clamped (req : Request) :
    (req.startSec < 0 → normStart req = 0)
    ∧ (0 ≤ req.startSec → normStart req = req.startSec) := by
  constructor
  · intro h
    rw [normStart]
    exact max_eq_left (by omega)
  · intro h
    rw [normStart]
    exact max_eq_right h

theorem C6_start_clamped_witness :
    ((-5 : Int) < 0 ∧ normStart ⟨"frames", -5, none⟩ = 0)
    ∧ ((0 : Int) ≤ 948 ∧ normStart ⟨"frames", 948, none⟩ = 948) :=
  ⟨⟨by norm_num, (C6_start_clamped ⟨"frames", -5, none⟩).1 (by norm_num)⟩,
   ⟨by norm_num, (C6_start_clamped ⟨"frames", 948, none⟩).2 (by norm_num)⟩⟩

/-- C9: re-running the same request against the same output directory is
idempotent on the filesystem: applying the run trace a second time
changes nothing (identical filenames are overwritten in place), and no
duplicate directory or file entries ever accumulate. -/
theorem C9_idempotent_rerun (req : Request) (env : Env) (fs : FS) :
    applyTrace (applyTrace fs (run req env).1) (run req env).1
        = applyTrace fs (run req env).1
    ∧ (fs.files.Nodup → (applyTrace fs (run req env).1).files.Nodup)
    ∧ (fs.dirs.Nodup → (applyTrace fs (run req env).1).dirs.Nodup) :=
  ⟨applyTrace_idem (run req env).1 fs,
   nodup_files_applyTrace (run req env).1 fs,
   nodup_dirs_applyTrace (run req env).1 fs⟩

theorem C9_idempotent_rerun_witness :
    (List.Nodup ([] : List String)
    ∧ applyTrace
        (applyTrace ⟨[], []⟩
          (run ⟨"frames", 10, some 12⟩ ⟨true, true, 30, 600, fun _ => true, fun _ => true⟩).1)
        (run ⟨"frames", 10, some 12⟩ ⟨true, true, 30, 600, fun _ => true, fun _ => true⟩).1
        = applyTrace ⟨[], []⟩
            (run ⟨"frames", 10, some 12⟩ ⟨true, true, 30, 600, fun _ => true, fun _ => true⟩).1)
    ∧ (applyTrace ⟨[], []⟩
        (run ⟨"frames", 10, some 12⟩ ⟨true, true, 30, 600, fun _ => true, fun _ => true⟩).1).files.Nodup
    ∧ (applyTrace ⟨[], []⟩
        (run ⟨"frames", 10, some 12⟩ ⟨true, true, 30, 600, fun _ => true, fun _ => true⟩).1).dirs.Nodup := by
  obtain ⟨ha, hb, hc⟩ := C9_idempotent_rerun ⟨"frames", 10, some 12⟩
    ⟨true, true, 30, 600, fun _ => true, fun _ => true⟩ ⟨[], []⟩
  exact ⟨⟨by decide, ha⟩, hb (by decide), hc (by decide)⟩

/-- C10: the output directory (with missing parents, per os.makedirs) is
created as the very first action of every run - before resolution,
opening, metadata and range validation - so even a run that aborts with
any error and writes nothing leaves the directory existing. -/
theorem C10_mkdir_first_on_all_paths (req : Request) (env : Env) (fs : FS) :
    (run req env).1.head? = some (Event.mkdir req.outputDir)
    ∧ req.outputDir ∈ (applyTrace fs (run req env).1).dirs := by
  have hhead : ∃ t, (run req env).1 = Event.mkdir req.outputDir :: t := by
    by_cases h1 : env.resolveOk = false
    · unfold run
      rw [if_pos h1]
      exact ⟨[], rfl⟩
    · by_cases h2 : env.openOk = false
      · unfold run
        rw [if_neg h1, if_pos h2]
        exact ⟨[], rfl⟩
      · by_cases h3 : env.fps = 0
        · unfold run
          rw [if_neg h1, if_neg h2, if_pos h3]
          exact ⟨[], rfl⟩
        · by_cases h4 : normStart req > normEnd req env
          · rw [run_rangeError req env h1 h2 h3 h4]
            exact ⟨[], rfl⟩
          · rw [run_loop req env h1 h2 h3 h4]
            rcases hr : (loop env req.outputDir (secList (normStart req) (normEnd req env))).2
              with e | u
            · exact ⟨_, rfl⟩
            · exact ⟨_, rfl⟩
  obtain ⟨t, ht⟩ := hhead
  rw [ht]
  exact ⟨rfl, mkdir_mem_applyTrace _ fs _ (List.mem_cons_self _ _)⟩

end YoutubeSS

namespace YoutubeSS

/-- C4: when decoding yields no frame at a second s inside the
normalized range and every earlier second decoded and wrote
successfully, the run ends without error and the written seconds are
exactly the seconds from the normalized start up to s - 1: earlier
artifacts remain, nothing at or after s is written. -/
theorem C4_decode_failure_stops_early (req : Request) (env : Env) (s : Int)
    (h1 : env.resolveOk = true) (h2 : env.openOk = true) (h3 : env.fps ≠ 0)
    (ha : normStart req ≤ s) (hb : s ≤ normEnd req env)
    (hpre : ∀ t, normStart req ≤ t → t < s → env.decodeOk t = true ∧ env.writeOk t = true)
    (hs : env.decodeOk s = false) :
    (run req env).2 = Except.ok ()
    ∧ writtenSecs (run req env).1 = secList (normStart req) (s - 1) := by
  have h4 : ¬ normStart req > normEnd req env := by omega
  rw [run_loop req env (by simp [h1]) (by simp [h2]) h3 h4]
  rw [loop_stop env req.outputDir (s - normStart req).toNat (normStart req) s (normEnd req env)
      (by omega) hb hpre (Or.inl hs)]
  rw [hs]
  simp [writtenSecs, writtenSecs_append, writtenSecs_blocks]

theorem C4_decode_failure_stops_early_witness :
    ((7 : Int) ≤ normEnd ⟨"frames", 0, some 10⟩
        ⟨true, true, 30, 600, fun t => decide (t < 7), fun _ => true⟩
      ∧ Env.decodeOk ⟨true, true, 30, 600, fun t => decide (t < 7), fun _ => true⟩ 7 = false)
    ∧ (run ⟨"frames", 0, some 10⟩
        ⟨true, true, 30, 600, fun t => decide (t < 7), fun _ => true⟩).2 = Except.ok ()
    ∧ writtenSecs (run ⟨"frames", 0, some 10⟩
        ⟨true, true, 30, 600, fun t => decide (t < 7), fun _ => true⟩).1
        = secList (normStart ⟨"frames", 0, some 10⟩) (7 - 1)
    ∧ secList (normStart ⟨"frames", 0, some 10⟩) (7 - 1) = [0, 1, 2, 3, 4, 5, 6] := by
  have hb : (7 : Int) ≤ normEnd ⟨"frames", 0, some 10⟩
      ⟨true, true, 30, 600, fun t => decide (t < 7), fun _ => true⟩ := by
    norm_num [normEnd, duration, pyInt]
  obtain ⟨hrun, hsecs⟩ := C4_decode_failure_stops_early ⟨"frames", 0, some 10⟩
      ⟨true, true, 30, 600, fun t => decide (t < 7), fun _ => true⟩ 7
      rfl rfl (by norm_num) (by decide) hb
      (fun t h1 h2 => ⟨decide_eq_true h2, rfl⟩) rfl
  exact ⟨⟨hb, rfl⟩, hrun, hsecs, by decide⟩

/-- C5: when the requested end second is unset, or set above the floor
of the duration frame_count / fps (of a stream with positive frame rate
and nonnegative frame count), the normalized end second is exactly the
floor of the duration. -/
theorem C5_end_clamped_to_floor (req : Request) (env : Env)
    (hfps : 0 < env.fps) (hfc : 0 ≤ env.frameCount)
    (h : req.endSec = none ∨ ∃ e, req.endSec = some e ∧ ⌊duration env⌋ < e) :
    normEnd req env = ⌊duration env⌋ := by
  have hd : 0 ≤ duration env := by
    unfold duration
    exact div_nonneg (by exact_mod_cast hfc) (le_of_lt hfps)
  have hpy : pyInt (duration env) = ⌊duration env⌋ := by rw [pyInt, if_pos hd]
  rcases h with h | ⟨e, he, hlt⟩
  · simp only [normEnd, h]
    exact hpy
  · have hgt : (e : ℚ) > duration env := by
      have hle : ((⌊duration env⌋ : Int) : ℚ) ≤ duration env := Int.floor_le _
      have hlt1 : duration env < ((⌊duration env⌋ : Int) : ℚ) + 1 := Int.lt_floor_add_one _
      have hcast : ((⌊duration env⌋ : Int) : ℚ) + 1 ≤ (e : ℚ) := by exact_mod_cast hlt
      linarith
    simp only [normEnd, he]
    rw [if_pos hgt]
    exact hpy

theorem C5_end_clamped_to_floor_witness :
    (0 < (30 : ℚ) ∧ (0 : Int) ≤ 150)
    ∧ normEnd ⟨"frames", 0, none⟩ ⟨true, true, 30, 150, fun _ => true, fun _ => true⟩
        = ⌊duration ⟨true, true, 30, 150, fun _ => true, fun _ => true⟩⌋
    ∧ ⌊duration ⟨true, true, 30, 150, fun _ => true, fun _ => true⟩⌋ = 5
    ∧ writtenNames (run ⟨"frames", 0, none⟩ ⟨true, true, 30, 150, fun _ => true, fun _ => true⟩).1
        = ["frames/frame_0000.jpg", "frames/frame_0001.jpg", "frames/frame_0002.jpg",
           "frames/frame_0003.jpg", "frames/frame_0004.jpg", "frames/frame_0005.jpg"] := by
  refine ⟨⟨by norm_num, by norm_num⟩,
    C5_end_clamped_to_floor ⟨"frames", 0, none⟩ ⟨true, true, 30, 150, fun _ => true, fun _ => true⟩
      (by norm_num) (by norm_num) (Or.inl rfl), ?_, ?_⟩
  · norm_num [duration]
  · have h5 : normEnd ⟨"frames", 0, none⟩ ⟨true, true, 30, 150, fun _ => true, fun _ => true⟩
        = 5 := by
      norm_num [normEnd, duration, pyInt]
    have h0 : normStart ⟨"frames", 0, none⟩ = 0 := by norm_num [normStart]
    norm_num [run, h5, h0]
    all_goals decide

end YoutubeSS

namespace YoutubeSS

/-- C7: in a run that returns normally (complete or early-stopped), the
written seconds are consecutive integers starting at the normalized
start (strictly increasing, no gap before the stopping point), every
artifact is named output_dir/frame_ + zero-padded second + .jpg, and
every write event is immediately preceded in the trace by a seek of the
playback position to second * 1000 milliseconds. -/
theorem C7_ordering_naming_seek (req : Request) (env : Env)
    (_h : (run req env).2 = Except.ok ()) :
    (∃ k, writtenSecs (run req env).1
        = (List.range k).map (fun (i : Nat) => normStart req + (i : Int)))
    ∧ (∀ f s, Event.write f s ∈ (run req env).1 → f = frameName req.outputDir s)
    ∧ seekBeforeWrite (run req env).1 := by
  by_cases h1 : env.resolveOk = false
  · unfold run
    rw [if_pos h1]
    refine ⟨⟨0, rfl⟩, ?_, sbw_singleton _⟩
    intro f s hm
    simp at hm
  · by_cases h2 : env.openOk = false
    · unfold run
      rw [if_neg h1, if_pos h2]
      refine ⟨⟨0, rfl⟩, ?_, sbw_singleton _⟩
      intro f s hm
      simp at hm
    · by_cases h3 : env.fps = 0
      · unfold run
        rw [if_neg h1, if_neg h2, if_pos h3]
        refine ⟨⟨0, rfl⟩, ?_, sbw_singleton _⟩
        intro f s hm
        simp at hm
      · by_cases h4 : normStart req > normEnd req env
        · rw [run_rangeError req env h1 h2 h3 h4]
          refine ⟨⟨0, rfl⟩, ?_, sbw_singleton _⟩
          intro f s hm
          simp at hm
        · rw [run_loop req env h1 h2 h3 h4]
          rcases hr : (loop env req.outputDir (secList (normStart req) (normEnd req env))).2
            with e | u
          · refine ⟨?_, ?_, ?_⟩
            · obtain ⟨k, hk⟩ :=
                loop_writes_take env req.outputDir (secList (normStart req) (normEnd req env))
              refine ⟨min k (normEnd req env + 1 - normStart req).toNat, ?_⟩
              calc writtenSecs (Event.mkdir req.outputDir ::
                      (loop env req.outputDir (secList (normStart req) (normEnd req env))).1)
                  = writtenSecs
                      (loop env req.outputDir (secList (normStart req) (normEnd req env))).1 :=
                    rfl
                _ = (secList (normStart req) (normEnd req env)).take k := hk
                _ = ((List.range (normEnd req env + 1 - normStart req).toNat).map
                      (fun (i : Nat) => normStart req + (i : Int))).take k := by rw [secList]
                _ = ((List.range (normEnd req env + 1 - normStart req).toNat).take k).map
                      (fun (i : Nat) => normStart req + (i : Int)) := by rw [List.map_take]
                _ = (List.range (min k (normEnd req env + 1 - normStart req).toNat)).map
                      (fun (i : Nat) => normStart req + (i : Int)) := by rw [List.take_range]
            · intro f s hm
              rcases List.mem_cons.mp hm with hm | hm
              · cases hm
              · exact loop_write_name env req.outputDir _ f s hm
            · exact sbw_cons_mkdir _ _
                (sbw_loop env req.outputDir (secList (normStart req) (normEnd req env)))
                (fun f s => loop_head_not_write env req.outputDir
                  (secList (normStart req) (normEnd req env)) f s)
          · have hh0 : ∀ f s,
                ((loop env req.outputDir (secList (normStart req) (normEnd req env))).1
                    ++ [Event.release]).get? 0 ≠ some (Event.write f s) := by
              intro f s
              cases hevs : (loop env req.outputDir (secList (normStart req) (normEnd req env))).1
                with
              | nil => simp [hevs]
              | cons x t =>
                have hx := loop_head_not_write env req.outputDir
                  (secList (normStart req) (normEnd req env)) f s
                rw [hevs] at hx
                simp only [List.cons_append, List.get?_cons_zero]
                simp only [List.get?_cons_zero] at hx
                exact hx
            refine ⟨?_, ?_, ?_⟩
            · obtain ⟨k, hk⟩ :=
                loop_writes_take env req.outputDir (secList (normStart req) (normEnd req env))
              refine ⟨min k (normEnd req env + 1 - normStart req).toNat, ?_⟩
              calc writtenSecs (Event.mkdir req.outputDir ::
                      ((loop env req.outputDir (secList (normStart req) (normEnd req env))).1
                        ++ [Event.release]))
                  = writtenSecs
                      ((loop env req.outputDir (secList (normStart req) (normEnd req env))).1
                        ++ [Event.release]) := rfl
                _ = writtenSecs
                      (loop env req.outputDir (secList (normStart req) (normEnd req env))).1 := by
                    rw [writtenSecs_append]
                    simp [writtenSecs]
                _ = (secList (normStart req) (normEnd req env)).take k := hk
                _ = ((List.range (normEnd req env + 1 - normStart req).toNat).map
                      (fun (i : Nat) => normStart req + (i : Int))).take k := by rw [secList]
                _ = ((List.range (normEnd req env + 1 - normStart req).toNat).take k).map
                      (fun (i : Nat) => normStart req + (i : Int)) := by rw [List.map_take]
                _ = (List.range (min k (normEnd req env + 1 - normStart req).toNat)).map
                      (fun (i : Nat) => normStart req + (i : Int)) := by rw [List.take_range]
            · intro f s hm
              rcases List.mem_cons.mp hm with hm | hm
              · cases hm
              · rcases List.mem_append.mp hm with hm | hm
                · exact loop_write_name env req.outputDir _ f s hm
                · simp at hm
            · exact sbw_cons_mkdir _ _
                (sbw_concat _ _ (fun f s hne => by cases hne)
                  (sbw_loop env req.outputDir (secList (normStart req) (normEnd req env))))
                hh0

theorem C7_ordering_naming_seek_witness :
    (run ⟨"frames", 10, some 12⟩ ⟨true, true, 30, 600, fun _ => true, fun _ => true⟩).2
        = Except.ok ()
    ∧ ((∃ k, writtenSecs
          (run ⟨"frames", 10, some 12⟩ ⟨true, true, 30, 600, fun _ => true, fun _ => true⟩).1
          = (List.range k).map (fun (i : Nat) => normStart ⟨"frames", 10, some 12⟩ + (i : Int)))
      ∧ (∀ f s, Event.write f s
            ∈ (run ⟨"frames", 10, some 12⟩ ⟨true, true, 30, 600, fun _ => true, fun _ => true⟩).1
            → f = frameName "frames" s)
      ∧ seekBeforeWrite
          (run ⟨"frames", 10, some 12⟩ ⟨true, true, 30, 600, fun _ => true, fun _ => true⟩).1) := by
  have hE : normEnd ⟨"frames", 10, some 12⟩ ⟨true, true, 30, 600, fun _ => true, fun _ => true⟩
      = 12 := by
    norm_num [normEnd, duration, pyInt]
  have hS : normStart ⟨"frames", 10, some 12⟩ = 10 := by norm_num [normStart]
  have hok : (run ⟨"frames", 10, some 12⟩
      ⟨true, true, 30, 600, fun _ => true, fun _ => true⟩).2 = Except.ok () := by
    norm_num [run, hE, hS]
    all_goals decide
  exact ⟨hok, C7_ordering_naming_seek ⟨"frames", 10, some 12⟩
    ⟨true, true, 30, 600, fun _ => true, fun _ => true⟩ hok⟩

/-- C8: when the frame at second s inside the normalized range decodes
but persisting it fails (cv2.imwrite raises), after all earlier seconds
succeeded, the run aborts with the write error: the written seconds stop
at s - 1 and the trace ends at the seek to s * 1000, so no later second
is processed. -/
theorem C8_write_failure_aborts (req : Request) (env : Env) (s : Int)
    (h1 : env.resolveOk = true) (h2 : env.openOk = true) (h3 : env.fps ≠ 0)
    (ha : normStart req ≤ s) (hb : s ≤ normEnd req env)
    (hpre : ∀ t, normStart req ≤ t → t < s → env.decodeOk t = true ∧ env.writeOk t = true)
    (hsd : env.decodeOk s = true) (hsw : env.writeOk s = false) :
    (run req env).2 = Except.error Err.writeError
    ∧ writtenSecs (run req env).1 = secList (normStart req) (s - 1)
    ∧ (run req env).1.getLast? = some (Event.seek (s * 1000)) := by
  have h4 : ¬ normStart req > normEnd req env := by omega
  rw [run_loop req env (by simp [h1]) (by simp [h2]) h3 h4]
  rw [loop_stop env req.outputDir (s - normStart req).toNat (normStart req) s (normEnd req env)
      (by omega) hb hpre (Or.inr hsw)]
  rw [hsd]
  refine ⟨by simp, ?_, ?_⟩
  · simp [writtenSecs, writtenSecs_append, writtenSecs_blocks]
  · show (Event.mkdir req.outputDir ::
        (blocks env req.outputDir (secList (normStart req) (s - 1))
          ++ [Event.seek (s * 1000)])).getLast? = some (Event.seek (s * 1000))
    rw [← List.cons_append]
    exact List.getLast?_concat _

theorem C8_write_failure_aborts_witness :
    (Env.decodeOk ⟨true, true, 30, 600, fun _ => true, fun t => decide (t < 3)⟩ 3 = true
      ∧ Env.writeOk ⟨true, true, 30, 600, fun _ => true, fun t => decide (t < 3)⟩ 3 = false)
    ∧ (run ⟨"frames", 0, some 5⟩ ⟨true, true, 30, 600, fun _ => true, fun t => decide (t < 3)⟩).2
        = Except.error Err.writeError
    ∧ writtenSecs (run ⟨"frames", 0, some 5⟩
        ⟨true, true, 30, 600, fun _ => true, fun t => decide (t < 3)⟩).1
        = secList (normStart ⟨"frames", 0, some 5⟩) (3 - 1)
    ∧ (run ⟨"frames", 0, some 5⟩
        ⟨true, true, 30, 600, fun _ => true, fun t => decide (t < 3)⟩).1.getLast?
        = some (Event.seek (3 * 1000))
    ∧ secList (normStart ⟨"frames", 0, some 5⟩) (3 - 1) = [0, 1, 2] := by
  have hb : (3 : Int) ≤ normEnd ⟨"frames", 0, some 5⟩
      ⟨true, true, 30, 600, fun _ => true, fun t => decide (t < 3)⟩ := by
    norm_num [normEnd, duration, pyInt]
  obtain ⟨hrun, hsecs, hlast⟩ := C8_write_failure_aborts ⟨"frames", 0, some 5⟩
      ⟨true, true, 30, 600, fun _ => true, fun t => decide (t < 3)⟩ 3
      rfl rfl (by norm_num) (by decide) hb
      (fun t ht1 ht2 => ⟨rfl, decide_eq_true ht2⟩) rfl rfl
  exact ⟨⟨rfl, rfl⟩, hrun, hsecs, hlast, by decide⟩

end YoutubeSS
